import Mathlib

/-!
Verification development for the subcurrent-astro feed-aggregation pipeline.

The TypeScript source is shallowly embedded: pure string transformations
(the regex-based helpers of src/utils/feedCollector.ts, the sanitizer of
sanitizeHtml.ts and the Discord notifier script) become executable Lean
functions over lists of characters; host-environment effects (network
fetches, the system clock, the JavaScript Date parser, the DOMPurify
library, the file system) are passed in as explicit oracle parameters.
JavaScript strings are modelled as Lean strings (code points; the inputs
considered are ASCII, where the two agree), and instants are modelled as
integers (milliseconds since the Unix epoch, the value of Date.getTime).

Regex-based replacements from the source are modelled by left-to-right
scanners that mirror the JavaScript semantics of String.replace with a
global pattern: the scanner looks for a match at each position, emits the
replacement and resumes after the matched span (replacements are not
rescanned), and otherwise advances one character.
-/

namespace Subcurrent

/-- Substring containment, modelling JavaScript String.includes. -/
def listHasInfix (pat : List Char) : List Char → Bool
  | [] => pat.isEmpty
  | c :: rest => if pat.isPrefixOf (c :: rest) then true else listHasInfix pat rest

/-- String form of substring containment (JavaScript s.includes(pat)). -/
def strContains (s pat : String) : Bool :=
  listHasInfix pat.toList s.toList

/-- JavaScript falsy-coalescing on strings: a || b is b exactly when a is empty. -/
def jsOr (a b : String) : String :=
  if a = "" then b else a

/-- Whitespace class of the JavaScript regex escape \s (ASCII part). -/
def isJsWhitespace (c : Char) : Bool :=
  c = ' ' || c = '\t' || c = '\n' || c = '\r' || c.toNat = 11 || c.toNat = 12

/-- Word-character class of the JavaScript regex escape \w. -/
def isWordChar (c : Char) : Bool :=
  c.isAlphanum || c = '_'

/-- Case-insensitive prefix test, for regexes carrying the i flag. -/
def ciPrefixOf : List Char → List Char → Bool
  | [], _ => true
  | _ :: _, [] => false
  | p :: ps, c :: cs => p.toLower = c.toLower && ciPrefixOf ps cs

/-- Splits a character list at the first occurrence of a single character:
returns the part before it and the part after it. -/
def splitAtFirst (t : Char) : List Char → Option (List Char × List Char)
  | [] => none
  | c :: rest =>
    if c = t then some ([], rest)
    else
      match splitAtFirst t rest with
      | some (pre, post) => some (c :: pre, post)
      | none => none

/-- Splits a character list at the first occurrence of a character sequence. -/
def splitAtFirstSeq (pat : List Char) : List Char → Option (List Char × List Char)
  | [] => none
  | c :: rest =>
    if pat.isPrefixOf (c :: rest) then some ([], (c :: rest).drop pat.length)
    else
      match splitAtFirstSeq pat rest with
      | some (pre, post) => some (c :: pre, post)
      | none => none

/-- Case-insensitive variant of splitAtFirstSeq. -/
def splitAtFirstSeqCI (pat : List Char) : List Char → Option (List Char × List Char)
  | [] => none
  | c :: rest =>
    if ciPrefixOf pat (c :: rest) then some ([], (c :: rest).drop pat.length)
    else
      match splitAtFirstSeqCI pat rest with
      | some (pre, post) => some (c :: pre, post)
      | none => none

/-- Global literal replacement, modelling s.replace(/pat/g, repl) for a
literal pattern: leftmost matches, non-overlapping, replacements are not
rescanned. The fuel argument is initialised to the input length. -/
def replaceAllAux (pat repl : List Char) : Nat → List Char → List Char
  | 0, l => l
  | _ + 1, [] => []
  | fuel + 1, c :: rest =>
    if pat.isPrefixOf (c :: rest) && !pat.isEmpty then
      repl ++ replaceAllAux pat repl fuel ((c :: rest).drop pat.length)
    else
      c :: replaceAllAux pat repl fuel rest

/-- String wrapper for replaceAllAux. -/
def replaceAll (pat repl s : String) : String :=
  (replaceAllAux pat.toList repl.toList s.toList.length s.toList).asString

/-- Collapses each maximal run of whitespace to a single space,
modelling .replace(/\s+/g, ' '). -/
def collapseWsAux : Nat → List Char → List Char
  | 0, l => l
  | _ + 1, [] => []
  | fuel + 1, c :: rest =>
    if isJsWhitespace c then ' ' :: collapseWsAux fuel (rest.dropWhile isJsWhitespace)
    else c :: collapseWsAux fuel rest

/-- Removes CDATA wrappers keeping their content, modelling
.replace(/<!\[CDATA\[(.*?)\]\]>/g, "$1"). The dot of the source regex does
not match line terminators, so a newline before the closing marker blocks
the match at that position. -/
def stripCdataAux : Nat → List Char → List Char
  | 0, l => l
  | _ + 1, [] => []
  | fuel + 1, c :: rest =>
    if ("<![CDATA[".toList).isPrefixOf (c :: rest) then
      match splitAtFirstSeq ("]]>".toList) ((c :: rest).drop 9) with
      | some (inner, after) =>
        if inner.any (fun ch => ch = '\n' || ch = '\r') then c :: stripCdataAux fuel rest
        else inner ++ stripCdataAux fuel after
      | none => c :: stripCdataAux fuel rest
    else c :: stripCdataAux fuel rest

/-- Removes markup tags, modelling .replace(/<[^>]+>/g, ''): an opening
angle bracket, at least one character other than a closing angle bracket,
then a closing angle bracket. -/
def stripTagsAux : Nat → List Char → List Char
  | 0, l => l
  | _ + 1, [] => []
  | fuel + 1, c :: rest =>
    if c = '<' then
      match splitAtFirst '>' rest with
      | some (inner, after) =>
        if inner.isEmpty then '<' :: stripTagsAux fuel rest
        else stripTagsAux fuel after
      | none => '<' :: stripTagsAux fuel rest
    else c :: stripTagsAux fuel rest

/-- Replaces HTML entities by spaces, modelling .replace(/&[^;]+;/g, ' '). -/
def entityToSpaceAux : Nat → List Char → List Char
  | 0, l => l
  | _ + 1, [] => []
  | fuel + 1, c :: rest =>
    if c = '&' then
      match splitAtFirst ';' rest with
      | some (inner, after) =>
        if inner.isEmpty then '&' :: entityToSpaceAux fuel rest
        else ' ' :: entityToSpaceAux fuel after
      | none => '&' :: entityToSpaceAux fuel rest
    else c :: entityToSpaceAux fuel rest

/-- JavaScript String.trim on the modelled whitespace class. -/
def jsTrim (l : List Char) : List Char :=
  ((l.dropWhile isJsWhitespace).reverse.dropWhile isJsWhitespace).reverse

/-- Index of the last space character, modelling String.lastIndexOf(' ')
with none standing for the JavaScript result -1. -/
def lastSpaceIdx (l : List Char) : Option Nat :=
  match l.reverse.findIdx? (fun c => c = ' ') with
  | some j => some (l.length - 1 - j)
  | none => none

/-- Removes complete script elements, modelling
.replace(/<script\b[^<]*(?:(?!<\/script>)<[^<]*)*<\/script>/gi, ''):
a case-insensitive script opening at a word boundary, everything up to the
first case-insensitive closing script tag, inclusive. An opening with no
matching closing tag is left in place. -/
def removeScriptsAux : Nat → List Char → List Char
  | 0, l => l
  | _ + 1, [] => []
  | fuel + 1, c :: rest =>
    if ciPrefixOf ("<script".toList) (c :: rest) then
      let afterTag := (c :: rest).drop 7
      let boundaryOk := match afterTag.head? with
        | some ch => !(isWordChar ch)
        | none => false
      if boundaryOk then
        match splitAtFirstSeqCI ("</script>".toList) afterTag with
        | some (_, after) => removeScriptsAux fuel after
        | none => c :: removeScriptsAux fuel rest
      else c :: removeScriptsAux fuel rest
    else c :: removeScriptsAux fuel rest

/-- Lazy scan for the closing delimiter of a quoted attribute value: an
optional backslash followed by a quote of either kind ends the value at
the earliest possible position. Returns the value and the remainder after
the closing quote. -/
def closeScan : List Char → Option (List Char × List Char)
  | [] => none
  | '\\' :: q :: rest =>
    if q = '"' || q = '\'' then some ([], rest)
    else
      match closeScan (q :: rest) with
      | some (v, after) => some ('\\' :: v, after)
      | none => none
  | q :: rest =>
    if q = '"' || q = '\'' then some ([], rest)
    else
      match closeScan rest with
      | some (v, after) => some (q :: v, after)
      | none => none

/-- Scans an attribute-value position: an optional literal backslash, an
opening quote (double or single), the lazily matched value, then an
optional backslash and a closing quote (either kind, independent of the
opening one). Returns the value and the remainder after the closing quote.
Models the regex fragment \\?("|')(.*?)\\?("|'). -/
def parseQuoted (l : List Char) : Option (List Char × List Char) :=
  match (if l.head? = some '\\' then l.drop 1 else l) with
  | q :: rest => if q = '"' || q = '\'' then closeScan rest else none
  | [] => none

/-- Searches for a case-insensitive occurrence of a pattern that must
appear before any closing angle bracket (the regex fragment [^>]*pat);
returns the remainder after the pattern. -/
def findBeforeGt (pat : List Char) : List Char → Option (List Char)
  | [] => none
  | c :: rest =>
    if ciPrefixOf pat (c :: rest) then some ((c :: rest).drop pat.length)
    else if c = '>' then none
    else findBeforeGt pat rest

/-- Collapses a run of quote characters after a slash into the slash
alone, modelling .replace(/\/["']+/g, '/'). -/
def slashQuoteAux : Nat → List Char → List Char
  | 0, l => l
  | _ + 1, [] => []
  | fuel + 1, c :: rest =>
    if c = '/' then
      let qs := rest.takeWhile (fun ch => ch = '"' || ch = '\'')
      if qs.isEmpty then '/' :: slashQuoteAux fuel rest
      else '/' :: slashQuoteAux fuel (rest.drop qs.length)
    else c :: slashQuoteAux fuel rest

/-- URL cleanup applied inside the img and anchor fix-ups of
preprocessHtmlSnippet: drops encoded quotes, escaped quotes, a trailing
run of quote characters, and quote runs following a slash. -/
def cleanQuotedUrl (url : List Char) : List Char :=
  let u := replaceAllAux ("&quot;".toList) [] url.length url
  let u := replaceAllAux ('\\' :: ['"']) [] u.length u
  let u := (u.reverse.dropWhile (fun c => c = '"' || c = '\'')).reverse
  slashQuoteAux u.length u

/-- Rewrites img tags to a normalized form with a cleaned URL, modelling
.replace(/<img[^>]*src=\\?("|')(.*?)\\?("|')[^>]*>/gi, ...) of
preprocessHtmlSnippet: the whole matched tag is replaced by an img tag
holding only the cleaned src attribute. -/
def fixImgTagsAux : Nat → List Char → List Char
  | 0, l => l
  | _ + 1, [] => []
  | fuel + 1, c :: rest =>
    match
      (do
        guard (ciPrefixOf ("<img".toList) (c :: rest))
        let afterSrc ← findBeforeGt ("src=".toList) ((c :: rest).drop 4)
        let (url, afterQuote) ← parseQuoted afterSrc
        let (_, afterGt) ← splitAtFirst '>' afterQuote
        pure (url, afterGt) : Option (List Char × List Char))
    with
    | some (url, afterGt) =>
      ("<img src=\"".toList ++ cleanQuotedUrl url ++ "\">".toList) ++ fixImgTagsAux fuel afterGt
    | none => c :: fixImgTagsAux fuel rest

/-- Extracts the quoted attributes of a matched anchor tag and rewrites
each as name="value", dropping the href attribute, modelling the attrs
extraction inside the anchor fix-up of preprocessHtmlSnippet. -/
def extractAttrsAux : Nat → List Char → List Char
  | 0, _ => []
  | _ + 1, [] => []
  | fuel + 1, c :: rest =>
    if isJsWhitespace c then
      let name := rest.takeWhile isWordChar
      let afterName := rest.drop name.length
      if !name.isEmpty && afterName.head? = some '=' then
        match parseQuoted (afterName.drop 1) with
        | some (value, after) =>
          (if name = "href".toList then []
           else (' ' :: name) ++ ('=' :: '"' :: (value ++ ['"']))) ++ extractAttrsAux fuel after
        | none => extractAttrsAux fuel rest
      else extractAttrsAux fuel rest
    else extractAttrsAux fuel rest

/-- Rewrites anchor tags with a cleaned href and normalized remaining
attributes, modelling
.replace(/<a[^>]*href=\\?("|')(.*?)\\?("|')[^>]*>/gi, ...) of
preprocessHtmlSnippet. -/
def fixATagsAux : Nat → List Char → List Char
  | 0, l => l
  | _ + 1, [] => []
  | fuel + 1, c :: rest =>
    match
      (do
        guard (ciPrefixOf ("<a".toList) (c :: rest))
        let afterHref ← findBeforeGt ("href=".toList) ((c :: rest).drop 2)
        let (url, afterQuote) ← parseQuoted afterHref
        let (_, afterGt) ← splitAtFirst '>' afterQuote
        pure (url, afterGt) : Option (List Char × List Char))
    with
    | some (url, afterGt) =>
      let matched := (c :: rest).take ((c :: rest).length - afterGt.length)
      let attrs := extractAttrsAux matched.length matched
      ("<a href=\"".toList ++ cleanQuotedUrl url ++ ['"'] ++ attrs ++ ['>'])
        ++ fixATagsAux fuel afterGt
    | none => c :: fixATagsAux fuel rest

/-! Data model of src/utils/feedCollector.ts. Instants (the values of
JavaScript Date.getTime, and the instants denoted by the ISO strings the
source produces via toISOString) are modelled as integers counting
milliseconds since the Unix epoch. -/

/-- Feed source record, from the Feed interface of feedCollector.ts. -/
structure Feed where
  url : String
  authorName : String
deriving DecidableEq, Repr

/-- Raw parsed entry, from the FeedEntry interface of feedCollector.ts. -/
structure FeedEntry where
  title : String
  link : String
  published : String
  description : String
  imageUrl : String
deriving DecidableEq, Repr

/-- Persisted entry record, from the ProcessedEntry interface of
feedCollector.ts; pubDate and lastFetched carry the modelled instants. -/
structure ProcessedEntry where
  title : String
  link : String
  pubDate : Int
  snippet : String
  author : String
  feedSource : String
  lastFetched : Int
  imageUrl : String
deriving DecidableEq, Repr

/-- cleanXMLContent of feedCollector.ts: CDATA unwrapping, tag stripping,
entity decoding in source order, then trim. -/
def cleanXMLContent (s : String) : String :=
  if s = "" then ""
  else
    let l := s.toList
    let l := stripCdataAux l.length l
    let l := stripTagsAux l.length l
    let l := replaceAllAux ("&amp;".toList) ("&".toList) l.length l
    let l := replaceAllAux ("&lt;".toList) ("<".toList) l.length l
    let l := replaceAllAux ("&gt;".toList) (">".toList) l.length l
    let l := replaceAllAux ("&quot;".toList) ("\"".toList) l.length l
    let l := replaceAllAux ("&#39;".toList) ("'".toList) l.length l
    (jsTrim l).asString

/-- Cleanup pass of generateTitleFromDescription in feedCollector.ts
(lines 146-150): strips tags, replaces entities by spaces, collapses
whitespace and trims. -/
def cleanedTitleText (description : String) : List Char :=
  let l := description.toList
  let l := stripTagsAux l.length l
  let l := entityToSpaceAux l.length l
  let l := collapseWsAux l.length l
  jsTrim l

/-- generateTitleFromDescription of feedCollector.ts: empty input and an
input cleaning to nothing give the empty string; a cleaned text of at
most 55 characters is returned whole; a longer one is truncated to 55
characters, cutting at the last space of that prefix when the space lies
beyond 70 percent of the bound (an integer index of at least 39, since
the source compares the index against the floating-point product
55 * 0.7, which is below 38.5) and mid-word otherwise, with an ellipsis
marker appended in both cases. -/
def generateTitleFromDescription (description : String) : String :=
  if description = "" then ""
  else if (cleanedTitleText description).isEmpty then ""
  else if (cleanedTitleText description).length ≤ 55 then
    (cleanedTitleText description).asString
  else
    match lastSpaceIdx ((cleanedTitleText description).take 55) with
    | some i =>
      if 39 ≤ i then (((cleanedTitleText description).take 55).take i).asString ++ "..."
      else ((cleanedTitleText description).take 55).asString ++ "..."
    | none => ((cleanedTitleText description).take 55).asString ++ "..."

/-- preprocessHtmlSnippet of feedCollector.ts: whitespace collapsing, img
and anchor URL fix-ups, removal of complete script elements, then
truncation to 2000 characters. -/
def preprocessHtmlSnippet (html : String) : String :=
  if html = "" then ""
  else
    let l := html.toList
    let l := collapseWsAux l.length l
    let l := fixImgTagsAux l.length l
    let l := fixATagsAux l.length l
    let l := removeScriptsAux l.length l
    (l.take 2000).asString

/-- parseDate of feedCollector.ts. The host Date constructor is the
oracle jsParse, returning the parsed instant or none for an invalid
date; now is the current instant. The source returns ISO strings; the
model returns the denoted instants. Note that this version performs no
future-date check. -/
def parseDate (jsParse : String → Option Int) (now : Int) (dateStr : String) : Int :=
  if dateStr = "" then now
  else
    match jsParse dateStr with
    | some t => t
    | none => now

/-- parseDate of the earlier collector generation (src/utils/
feedCollector.js, also present in the first scripts/feedCollector
revision): identical to parseDate except that an instant parsing into
the future is replaced by the current instant. -/
def parseDateLegacy (jsParse : String → Option Int) (now : Int) (dateStr : String) : Int :=
  if dateStr = "" then now
  else
    match jsParse dateStr with
    | some t => if now < t then now else t
    | none => now

/-- UTF-8 encoding of one code point, modelling Buffer.from on a
JavaScript string. -/
def utf8Bytes (c : Char) : List Nat :=
  let n := c.toNat
  if n < 0x80 then [n]
  else if n < 0x800 then [0xC0 + n / 64, 0x80 + n % 64]
  else if n < 0x10000 then [0xE0 + n / 4096, 0x80 + (n / 64) % 64, 0x80 + n % 64]
  else [0xF0 + n / 262144, 0x80 + (n / 4096) % 64, 0x80 + (n / 64) % 64, 0x80 + n % 64]

/-- Base64url alphabet. -/
def base64urlAlphabet : List Char :=
  "ABCDEFGHIJKLMNOPQRSTUVWXYZabcdefghijklmnopqrstuvwxyz0123456789-_".toList

/-- One base64url digit. -/
def b64c (n : Nat) : Char :=
  base64urlAlphabet.getD n 'A'

/-- Base64url encoding of a byte list without padding, modelling
Buffer.toString with the base64url encoding. -/
def base64urlEncode : List Nat → List Char
  | b1 :: b2 :: b3 :: rest =>
    b64c (b1 / 4) :: b64c ((b1 % 4) * 16 + b2 / 16) ::
      b64c ((b2 % 16) * 4 + b3 / 64) :: b64c (b3 % 64) :: base64urlEncode rest
  | [b1, b2] => [b64c (b1 / 4), b64c ((b1 % 4) * 16 + b2 / 16), b64c ((b2 % 16) * 4)]
  | [b1] => [b64c (b1 / 4), b64c ((b1 % 4) * 16)]
  | [] => []

/-- Collapses each maximal run of characters outside lowercase a-z and
0-9 to a single hyphen, modelling .replace(/[^a-z0-9]+/g, '-') applied
after lowercasing. -/
def collapseNonAlnumAux : Nat → List Char → List Char
  | 0, l => l
  | _ + 1, [] => []
  | fuel + 1, c :: rest =>
    if ('a' ≤ c && c ≤ 'z') || ('0' ≤ c && c ≤ '9') then
      c :: collapseNonAlnumAux fuel rest
    else
      '-' :: collapseNonAlnumAux fuel (rest.dropWhile
        (fun ch => !(('a' ≤ ch && ch ≤ 'z') || ('0' ≤ ch && ch ≤ '9'))))

/-- Title normalization inside createSafeFilename: lowercase, collapse
runs of characters outside lowercase letters and digits to single
hyphens, drop a leading and a trailing hyphen, keep at most 50
characters. -/
def safeTitle (title : String) : String :=
  let l := (title.toList.map Char.toLower)
  let l := collapseNonAlnumAux l.length l
  let l := if l.head? = some '-' then l.drop 1 else l
  let l := if l.getLast? = some '-' then l.dropLast else l
  (l.take 50).asString

/-- The first eight characters of the base64url encoding of the UTF-8
bytes of the url. -/
def urlHash8 (url : String) : String :=
  ((base64urlEncode (url.toList.flatMap utf8Bytes)).take 8).asString

/-- createSafeFilename of feedCollector.ts. -/
def createSafeFilename (url : String) (title : String) : String :=
  safeTitle title ++ "-" ++ urlHash8 url ++ ".json"

/-- Image-URL selection of parseEntry in feedCollector.ts (lines
194-235). The five structured probes model the host regex matches on the
entry block, in source order: the media:content url attribute, the
media:thumbnail url attribute, an image-typed enclosure url attribute, a
nested image/url element, and an itunes:image href attribute; each is
none when its pattern does not match, and its captured group is
otherwise a nonempty string by the shape of the patterns. The final
probe descriptionImg models the img src match run on the already
extracted description, consulted only when the accumulator is still
empty and the description is nonempty; the source additionally checks
that its captured group is truthy. The accumulator starts empty and each
guard fires only while it is still empty, exactly as in the source. -/
def parseEntryImage (mediaContent mediaThumbnail enclosureImage imageTag itunesImage :
    Option String) (description : String) (descriptionImg : Option String) : String :=
  let imageUrl : String := ""
  let imageUrl := match mediaContent with
    | some u => if imageUrl = "" then u else imageUrl
    | none => imageUrl
  let imageUrl := match mediaThumbnail with
    | some u => if imageUrl = "" then u else imageUrl
    | none => imageUrl
  let imageUrl := match enclosureImage with
    | some u => if imageUrl = "" then u else imageUrl
    | none => imageUrl
  let imageUrl := match imageTag with
    | some u => if imageUrl = "" then u else imageUrl
    | none => imageUrl
  let imageUrl := match itunesImage with
    | some u => if imageUrl = "" then u else imageUrl
    | none => imageUrl
  let imageUrl :=
    if imageUrl = "" && description ≠ "" then
      match descriptionImg with
      | some u => if u ≠ "" then u else imageUrl
      | none => imageUrl
    else imageUrl
  imageUrl

/-- Per-entry normalization in the loop of getFeedContent
(feedCollector.ts lines 483-499): fallback title chain, link defaulting,
date parsing, snippet preprocessing, and attribution fields. -/
def normalizeEntry (jsParse : String → Option Int) (now : Int) (feed : Feed)
    (e : FeedEntry) : ProcessedEntry :=
  { title := jsOr (jsOr e.title (generateTitleFromDescription e.description)) "Untitled Post"
    link := jsOr e.link ""
    pubDate := parseDate jsParse now e.published
    snippet := jsOr (preprocessHtmlSnippet e.description) ""
    author := feed.authorName
    feedSource := feed.url
    lastFetched := now
    imageUrl := jsOr e.imageUrl "" }

/-- The entry loop of getFeedContent (feedCollector.ts lines 480-502):
entries whose extracted title and description are both empty are skipped,
every other entry is normalized and collected in order. -/
def processEntries (jsParse : String → Option Int) (now : Int) (feed : Feed) :
    List FeedEntry → List ProcessedEntry
  | [] => []
  | e :: rest =>
    if e.title = "" ∧ e.description = "" then processEntries jsParse now feed rest
    else normalizeEntry jsParse now feed e :: processEntries jsParse now feed rest

/-! Fetch model for getFeedXML of feedCollector.ts. The network is an
oracle mapping the attempt number to the outcome of that fetch call:
either a thrown error (a TypeError for network failures, as thrown by the
host fetch) or a response with a status code and a body. The delays
(inter-domain spacing, the fixed per-feed delay, rate-limit-header sleeps
and exponential backoff) only affect timing, not values, and are not
modelled. -/

/-- A fetch response: status code and body text. -/
structure FetchResponse where
  status : Nat
  body : String
deriving DecidableEq, Repr

/-- A thrown JavaScript error, as far as getFeedXML inspects it: whether
it is a TypeError and its message. -/
structure JsError where
  isTypeError : Bool
  message : String
deriving DecidableEq, Repr

/-- Outcome of one host fetch call. -/
def FetchOutcome := Except JsError FetchResponse

/-- Response.ok of the fetch API: status in the 200-299 range. -/
def respOk (r : FetchResponse) : Bool :=
  200 ≤ r.status && r.status ≤ 299

/-- maxRetries of getFeedXML. -/
def maxRetries : Nat := 3

/-- Error message thrown when the retry budget for HTTP 429 is
exhausted. -/
def rateLimitMsg (url : String) : String :=
  "Rate limit exceeded (429) and max retries (3) reached for URL: " ++ url

/-- Error message thrown on a non-429, non-2xx status. -/
def failedFetchMsg (url : String) (status : Nat) : String :=
  "Failed to fetch feed: " ++ toString status ++ " for URL: " ++ url

/-- Error message thrown when the body carries neither an RSS nor an Atom
signature. -/
def invalidFeedMsg (url : String) : String :=
  "Response is not a valid RSS/Atom feed for URL: " ++ url

/-- Result of one iteration of the retry loop body of getFeedXML. -/
inductive StepOut where
  | retry
  | succeed (text : String)
  | fail (e : JsError)
deriving DecidableEq, Repr

/-- One iteration of the try block of getFeedXML (lines 317-384): fetch,
the HTTP 429 branch (throwing once the attempt counter reaches
maxRetries, otherwise backing off and retrying), the non-ok branch, and
the format sniffing of the body. -/
def tryStep (responses : Nat → FetchOutcome) (url : String) (attempt : Nat) : StepOut :=
  match responses attempt with
  | .error e => .fail e
  | .ok resp =>
    if resp.status = 429 then
      if maxRetries ≤ attempt then .fail ⟨false, rateLimitMsg url⟩
      else .retry
    else if !respOk resp then .fail ⟨false, failedFetchMsg url resp.status⟩
    else if !strContains resp.body "<rss" && !strContains resp.body "<feed" then
      .fail ⟨false, invalidFeedMsg url⟩
    else .succeed resp.body

/-- The retry loop of getFeedXML (lines 316-411). Every throw inside the
try block reaches the catch clause, which retries only Substack feeds on
errors that look like rate limiting (a TypeError, or a message containing
the word fetch) while attempts remain, and rethrows otherwise. The fuel
counts the remaining loop iterations; exhausting it reaches the trailing
throw of line 414. -/
def getFeedXMLGo (responses : Nat → FetchOutcome) (isSubstackFeed : Bool) (url : String) :
    Nat → Nat → Except JsError String
  | _, 0 => .error ⟨false, "Unexpected error: max retries exceeded for " ++ url⟩
  | attempt, fuel + 1 =>
    match tryStep responses url attempt with
    | .succeed t => .ok t
    | .retry => getFeedXMLGo responses isSubstackFeed url (attempt + 1) fuel
    | .fail e =>
      if decide (attempt < maxRetries) && isSubstackFeed
          && (e.isTypeError || strContains e.message "fetch") then
        getFeedXMLGo responses isSubstackFeed url (attempt + 1) fuel
      else .error e

/-- getFeedXML of feedCollector.ts: runs the retry loop from attempt 0;
the loop condition attempt less-or-equal maxRetries admits maxRetries + 1
iterations. -/
def getFeedXML (responses : Nat → FetchOutcome) (url : String) : Except JsError String :=
  getFeedXMLGo responses (strContains url "substack.com") url 0 (maxRetries + 1)

/-- getFeedContent of feedCollector.ts (lines 470-521). The whole body
sits in a try whose catch returns the empty list, so any failure of the
fetch (or of the later stages) degrades to zero entries. extractEntries
models the item/entry regex matching plus parseEntry applied to each
block (the parser stage); the file writes of the persistence stage have
no effect on the returned value and are not modelled. -/
def getFeedContent (responses : Nat → FetchOutcome) (jsParse : String → Option Int)
    (now : Int) (extractEntries : String → List FeedEntry) (feed : Feed) :
    List ProcessedEntry :=
  match getFeedXML responses feed.url with
  | .error _ => []
  | .ok text => processEntries jsParse now feed (extractEntries text)

/-! Model of sanitizeHtml (src/utils/sanitizeHtml.ts). The regex
pre-clean pass (lines 14-41), the DOMPurify call against the allow-list
configuration (line 82), the quoted-URL post-fixes (lines 85-88) and the
trailing-slash image pass (lines 91-103) are host-library-backed string
transformations passed in as explicit parameters; the empty-input check
and the container wrapping are the function's own code. -/

/-- The marker element opening that sanitizeHtml wraps its output in. -/
def sanitizedWrapOpen : String := "<div class=\"sanitized-content\">"

/-- The marker element closing. -/
def sanitizedWrapClose : String := "</div>"

/-- sanitizeHtml of sanitizeHtml.ts: empty input short-circuits to the
empty string; otherwise the input runs through the pre-clean pass, the
DOMPurify sanitization, the quoted-URL post-fix and the trailing-slash
fix, and the result is wrapped in the sanitized-content container. -/
def sanitizeHtml (preClean purify postFix slashFix : String → String)
    (htmlContent : String) : String :=
  if htmlContent = "" then ""
  else
    let preprocessed := preClean htmlContent
    let sanitized := purify preprocessed
    let sanitized := postFix sanitized
    let sanitized := slashFix sanitized
    sanitizedWrapOpen ++ sanitized ++ sanitizedWrapClose

/-! Model of the Discord notifier (scripts/notify-discord.ts). RSS items
carry their publication instants as integers (the value of
new Date(item.pubDate).getTime()); the webhook is an oracle mapping an
item to the HTTP status of the POST, or none for a network error. -/

/-- An item of the rendered RSS feed, from the RssItem interface of the
notifier; pubDate is the modelled instant. -/
structure RssItem where
  title : String
  link : String
  pubDate : Int
  description : String
  author : String
deriving DecidableEq, Repr

/-- The sent-items ledger, from the PostsTracker interface of the
notifier; latestTimestamp is the modelled instant. -/
structure PostsTracker where
  sentPosts : List String
  latestTimestamp : Int
deriving DecidableEq, Repr

/-- MAX_NOTIFICATIONS of the notifier: the per-run send bound. -/
def MAX_NOTIFICATIONS : Nat := 5

/-- Insertion into the sent-posts set, preserving JavaScript Set
insertion order. -/
def insertSet (s : List String) (x : String) : List String :=
  if x ∈ s then s else s ++ [x]

/-- Construction of the sent-posts set from the persisted array,
modelling new Set(tracker.sentPosts). -/
def mkSet (l : List String) : List String :=
  l.foldl insertSet []

/-- sendToDiscord of the notifier (lines 328-387): posts one embed to the
webhook. Its whole body sits in a try whose catch only logs, so it
returns normally on every outcome; the returned flag records whether the
POST succeeded (a 2xx status) and is ignored by the caller. -/
def sendToDiscord (post : RssItem → Option Nat) (item : RssItem) : Bool :=
  match post item with
  | some status => 200 ≤ status && status ≤ 299
  | none => false

/-- The sort order of the notifier comparator of line 412: publication
instants descending. -/
def pubDateGe (a b : RssItem) : Prop :=
  b.pubDate ≤ a.pubDate

instance : DecidableRel pubDateGe :=
  fun a b => inferInstanceAs (Decidable (b.pubDate ≤ a.pubDate))

instance : IsTotal RssItem pubDateGe :=
  ⟨fun a b => le_total b.pubDate a.pubDate⟩

instance : IsTrans RssItem pubDateGe :=
  ⟨fun _ _ _ h1 h2 => le_trans h2 h1⟩

/-- The sort of the notifier, lines 411-413. The host sort is stable
(ECMAScript Array.sort), and for a total preorder all stable sorts agree,
so it is modelled by a stable insertion sort. -/
def sortByPubDateDesc (items : List RssItem) : List RssItem :=
  List.insertionSort pubDateGe items

/-- The candidate filter of the notifier, lines 416-419: not yet sent and
strictly newer than the ledger instant. -/
def isNewItem (sentSet : List String) (latest : Int) (item : RssItem) : Bool :=
  !sentSet.contains item.link && decide (latest < item.pubDate)

/-- The send loop of the notifier, lines 427-436: each item of the batch
is posted (the outcome, recorded here only through sendToDiscord, is
ignored), its link is added to the sent set, and the running latest
instant is advanced when the item is newer. -/
def notifyLoop (post : RssItem → Option Nat) :
    List RssItem → List String × Int → List String × Int
  | [], st => st
  | item :: rest, (s, m) =>
    let _sent := sendToDiscord post item
    let s2 := insertSet s item.link
    let m2 := if m < item.pubDate then item.pubDate else m
    notifyLoop post rest (s2, m2)

/-- Result of one notifier run: the batch actually iterated and the
ledger written at the end. -/
structure NotifyResult where
  sent : List RssItem
  tracker : PostsTracker
deriving DecidableEq, Repr

/-- notifyNewItems of the notifier (lines 389-456): with no webhook
configured it returns early leaving the ledger untouched; otherwise it
sorts the fetched items newest first, filters to unsent items newer than
the ledger instant, takes at most MAX_NOTIFICATIONS of them, runs the
send loop, and writes back the updated ledger. -/
def notifyNewItems (webhookConfigured : Bool) (post : RssItem → Option Nat)
    (tracker : PostsTracker) (items : List RssItem) : NotifyResult :=
  if !webhookConfigured then ⟨[], tracker⟩
  else
    let sentSet := mkSet tracker.sentPosts
    let sorted := sortByPubDateDesc items
    let newItems := sorted.filter (isNewItem sentSet tracker.latestTimestamp)
    let itemsToSend := newItems.take MAX_NOTIFICATIONS
    let final := notifyLoop post itemsToSend (sentSet, tracker.latestTimestamp)
    ⟨itemsToSend, ⟨final.1, final.2⟩⟩

/-! Concrete example data used to instantiate the theorems below. -/

/-- A ledger holding one previously sent link and instant 100. -/
def exampleTracker : PostsTracker := ⟨["old1"], 100⟩

/-- Seven feed items, all unsent and newer than instant 100, in
non-chronological feed order. -/
def exampleItems : List RssItem :=
  [⟨"t1", "l1", 101, "", "a"⟩, ⟨"t2", "l2", 107, "", "a"⟩, ⟨"t3", "l3", 103, "", "a"⟩,
   ⟨"t4", "l4", 106, "", "a"⟩, ⟨"t5", "l5", 102, "", "a"⟩, ⟨"t6", "l6", 105, "", "a"⟩,
   ⟨"t7", "l7", 104, "", "a"⟩]

/-- The long single-word-heavy description used against the word-boundary
truncation statement: two short words, a space at index 2, then one
56-character word. -/
def exampleLongWordDesc : String := "ab " ++ ⟨List.replicate 56 'a'⟩

/-- An entry whose description decodes, through cleanXMLContent entity
decoding, to markup holding an iframe element. -/
def exampleIframeDesc : String := "<iframe src=\"https://evil.example/embed\"></iframe>"

/-! Supporting lemmas. -/

theorem jsOr_empty_right (a : String) : jsOr a "" = a := by
  unfold jsOr
  split
  · simp [*]
  · rfl

theorem length_asString (l : List Char) : (List.asString l).length = l.length := rfl

theorem preprocessHtmlSnippet_length_le (html : String) :
    (preprocessHtmlSnippet html).length ≤ 2000 := by
  unfold preprocessHtmlSnippet
  split
  · simp [String.length]
  · rw [length_asString, List.length_take]
    exact min_le_left _ _

theorem mem_insertSet (s : List String) (x y : String) :
    y ∈ insertSet s x ↔ y ∈ s ∨ y = x := by
  unfold insertSet
  split
  · rename_i hx
    constructor
    · exact Or.inl
    · rintro (h | rfl)
      · exact h
      · exact hx
  · simp

theorem mem_foldl_insertSet (l : List String) (acc : List String) (x : String) :
    x ∈ l.foldl insertSet acc ↔ x ∈ acc ∨ x ∈ l := by
  induction l generalizing acc with
  | nil => simp
  | cons a rest ih =>
    simp only [List.foldl_cons, ih, mem_insertSet, List.mem_cons]
    tauto

theorem mem_mkSet (l : List String) (x : String) : x ∈ mkSet l ↔ x ∈ l := by
  unfold mkSet
  rw [mem_foldl_insertSet]
  simp

theorem notifyLoop_fst_mem (post : RssItem → Option Nat) (l : List RssItem)
    (s : List String) (m : Int) (x : String) :
    x ∈ (notifyLoop post l (s, m)).1 ↔ x ∈ s ∨ x ∈ l.map RssItem.link := by
  induction l generalizing s m with
  | nil => simp [notifyLoop]
  | cons a rest ih =>
    simp only [notifyLoop, ih, mem_insertSet, List.map_cons, List.mem_cons]
    tauto

theorem notifyLoop_snd_ge (post : RssItem → Option Nat) (l : List RssItem)
    (s : List String) (m : Int) :
    m ≤ (notifyLoop post l (s, m)).2 ∧
      ∀ i ∈ l, i.pubDate ≤ (notifyLoop post l (s, m)).2 := by
  induction l generalizing s m with
  | nil => simp [notifyLoop]
  | cons a rest ih =>
    simp only [notifyLoop]
    constructor
    · refine le_trans ?_ (ih _ _).1
      split <;> omega
    · intro i hi
      rcases List.mem_cons.mp hi with rfl | hi
      · refine le_trans ?_ (ih _ _).1
        split <;> omega
      · exact (ih _ _).2 i hi

theorem notifyLoop_snd_eq_or_mem (post : RssItem → Option Nat) (l : List RssItem)
    (s : List String) (m : Int) :
    (notifyLoop post l (s, m)).2 = m ∨
      (notifyLoop post l (s, m)).2 ∈ l.map RssItem.pubDate := by
  induction l generalizing s m with
  | nil => simp [notifyLoop]
  | cons a rest ih =>
    simp only [notifyLoop, List.map_cons, List.mem_cons]
    rcases ih (insertSet s a.link) (if m < a.pubDate then a.pubDate else m) with h | h
    · rw [h]
      split
      · tauto
      · tauto
    · tauto

theorem sortByPubDateDesc_pairwise (items : List RssItem) :
    List.Pairwise pubDateGe (sortByPubDateDesc items) :=
  List.sorted_insertionSort pubDateGe items

theorem sortByPubDateDesc_perm (items : List RssItem) :
    (sortByPubDateDesc items).Perm items :=
  List.perm_insertionSort pubDateGe items

theorem processEntries_eq (jsParse : String → Option Int) (now : Int) (feed : Feed)
    (entries : List FeedEntry) :
    processEntries jsParse now feed entries =
      (entries.filter (fun e => !(decide (e.title = "") && decide (e.description = "")))).map
        (normalizeEntry jsParse now feed) := by
  induction entries with
  | nil => rfl
  | cons e rest ih =>
    by_cases h : e.title = "" ∧ e.description = ""
    · simp [processEntries, h, List.filter_cons, ih]
    · have hb : (!(decide (e.title = "") && decide (e.description = ""))) = true := by
        rcases not_and_or.mp h with h1 | h1 <;> simp [h1]
      have hcond : ¬e.title = "" ∨ ¬e.description = "" := not_and_or.mp h
      simp [processEntries, h, List.filter_cons, hb, hcond, ih]

/-! Claim theorems. -/

/-- C8: for every list of parsed raw entries, the normalization loop of
getFeedContent drops exactly those entries whose extracted title and
extracted description are both empty, normalizing the rest in order;
both-empty entries therefore never reach the persisted output. -/
theorem processEntries_drops_empty_c8 (jsParse : String → Option Int) (now : Int)
    (feed : Feed) (entries : List FeedEntry) :
    processEntries jsParse now feed entries =
      (entries.filter (fun e => !(decide (e.title = "") && decide (e.description = "")))).map
        (normalizeEntry jsParse now feed) :=
  processEntries_eq jsParse now feed entries

/-- C10: the sanitizer returns the empty string on empty input, and for
every non-empty input and every behavior of the host-backed pre-clean,
DOMPurify, post-fix and trailing-slash passes, the output is the div
container with class sanitized-content wrapped around the sanitized
content. -/
theorem sanitizeHtml_wrap_c10 (preClean purify postFix slashFix : String → String)
    (s : String) :
    sanitizeHtml preClean purify postFix slashFix "" = ""
    ∧ (s ≠ "" → ∃ inner, sanitizeHtml preClean purify postFix slashFix s =
        sanitizedWrapOpen ++ inner ++ sanitizedWrapClose) := by
  constructor
  · rfl
  · intro h
    refine ⟨slashFix (postFix (purify (preClean s))), ?_⟩
    unfold sanitizeHtml
    rw [if_neg h]

/-- Witness for C10 at the identity passes and the input hi. -/
theorem sanitizeHtml_wrap_c10_witness :
    sanitizeHtml id id id id "" = ""
    ∧ ∃ inner, sanitizeHtml id id id id "hi" =
        sanitizedWrapOpen ++ inner ++ sanitizedWrapClose :=
  ⟨(sanitizeHtml_wrap_c10 id id id id "hi").1,
    (sanitizeHtml_wrap_c10 id id id id "hi").2 (by decide)⟩

/-- C5 (amended): the derived filename is a deterministic function of the
(url, title) pair, depending on the title only through its safeTitle
normalization; in particular two titles with the same normalization give
the same filename for the same url, which is also why distinct pairs can
collide. -/
theorem createSafeFilename_c5 (u t1 t2 : String) (h : safeTitle t1 = safeTitle t2) :
    createSafeFilename u t1 = createSafeFilename u t2 := by
  unfold createSafeFilename
  rw [h]

/-- Witness for C5: the titles Hello World and hello world normalize
alike and give the same filename. -/
theorem createSafeFilename_c5_witness :
    safeTitle "Hello World" = safeTitle "hello world"
    ∧ createSafeFilename "https://x.example/post" "Hello World" =
        createSafeFilename "https://x.example/post" "hello world" :=
  ⟨by decide, createSafeFilename_c5 "https://x.example/post" "Hello World" "hello world"
    (by decide)⟩

/-- Counterexample for C5 as stated: the distinct (link, title) pairs
sharing the link but with the different titles Hello World and
hello-world! map to the same filename, so distinct pairs do collide. -/
theorem createSafeFilename_c5_cex :
    createSafeFilename "https://x.example/post" "Hello World" =
      createSafeFilename "https://x.example/post" "hello-world!"
    ∧ ("Hello World" : String) ≠ "hello-world!" := by
  exact ⟨by decide, by decide⟩

/-- C2 (code bug): parseDate of feedCollector.ts performs no future-date
check: with the host parser resolving the string 2999-01-01T00:00:00.000Z
to its instant and the current instant in 2025, parseDate returns the
future instant unchanged, strictly after now. The earlier collector
generation parseDateLegacy, matching the documented behavior, never
returns an instant after now, for every parser oracle, current instant
and input string. -/
theorem parseDate_future_c2 :
    parseDate (fun s => if s = "2999-01-01T00:00:00.000Z"
        then some 32472144000000 else none)
      1760140800000 "2999-01-01T00:00:00.000Z" = 32472144000000
    ∧ (1760140800000 : Int) < 32472144000000
    ∧ ∀ (jsParse : String → Option Int) (now : Int) (s : String),
        parseDateLegacy jsParse now s ≤ now := by
  refine ⟨by decide, by decide, ?_⟩
  intro jsParse now s
  unfold parseDateLegacy
  split
  · exact le_refl _
  · cases h : jsParse s with
    | none => simp
    | some t =>
      simp only
      split <;> omega

/-- C1 (amended): every entry persisted by the normalization loop stores
as its snippet exactly the preprocessed description, produced by
preprocessHtmlSnippet (whitespace collapsing, img and anchor URL
normalization, removal of complete script elements, truncation), and
that snippet is at most 2000 characters long. The full allow-list (no
iframe or style tags, no class, style or event-handler attributes) is
not enforced at this stage; it is applied by the render-time sanitizer. -/
theorem snippet_stage_c1 (jsParse : String → Option Int) (now : Int) (feed : Feed)
    (entries : List FeedEntry) (p : ProcessedEntry)
    (h : p ∈ processEntries jsParse now feed entries) :
    ∃ e, e ∈ entries ∧ p.snippet = preprocessHtmlSnippet e.description
      ∧ p.snippet.length ≤ 2000 := by
  induction entries with
  | nil => simp [processEntries] at h
  | cons e rest ih =>
    by_cases hc : e.title = "" ∧ e.description = ""
    · rw [processEntries, if_pos hc] at h
      obtain ⟨e2, he2, hs, hl⟩ := ih h
      exact ⟨e2, List.mem_cons_of_mem _ he2, hs, hl⟩
    · rw [processEntries, if_neg hc] at h
      rcases List.mem_cons.mp h with rfl | h2
      · have hs : (normalizeEntry jsParse now feed e).snippet =
            preprocessHtmlSnippet e.description := by
          simp [normalizeEntry, jsOr_empty_right]
        refine ⟨e, List.mem_cons_self _ _, hs, ?_⟩
        rw [hs]
        exact preprocessHtmlSnippet_length_le _
      · obtain ⟨e2, he2, hs, hl⟩ := ih h2
        exact ⟨e2, List.mem_cons_of_mem _ he2, hs, hl⟩

/-- Witness for C1 at a one-entry list. -/
theorem snippet_stage_c1_witness :
    ∃ e, e ∈ [FeedEntry.mk "t" "l" "" "<b>hi</b>" ""]
      ∧ (normalizeEntry (fun _ => none) 0 ⟨"u", "a"⟩
          (FeedEntry.mk "t" "l" "" "<b>hi</b>" "")).snippet =
            preprocessHtmlSnippet e.description
      ∧ (normalizeEntry (fun _ => none) 0 ⟨"u", "a"⟩
          (FeedEntry.mk "t" "l" "" "<b>hi</b>" "")).snippet.length ≤ 2000 :=
  snippet_stage_c1 (fun _ => none) 0 ⟨"u", "a"⟩ [FeedEntry.mk "t" "l" "" "<b>hi</b>" ""]
    (normalizeEntry (fun _ => none) 0 ⟨"u", "a"⟩ (FeedEntry.mk "t" "l" "" "<b>hi</b>" ""))
    (by decide)

/-- Counterexample for C1 as stated: a description arriving as
entity-encoded markup decodes, inside cleanXMLContent, into an iframe
element; preprocessHtmlSnippet keeps the iframe (while removing a
complete script element from the same input), so the persisted snippet
of the corresponding entry still contains an iframe tag, contradicting
the stated invariant for stored snippets. -/
theorem snippet_stage_c1_cex :
    cleanXMLContent
        "&lt;iframe src=&quot;https://evil.example/embed&quot;&gt;&lt;/iframe&gt;" =
      exampleIframeDesc
    ∧ strContains (preprocessHtmlSnippet exampleIframeDesc) "<iframe" = true
    ∧ (normalizeEntry (fun _ => none) 0 ⟨"u", "a"⟩
        (FeedEntry.mk "t" "l" "" exampleIframeDesc "")).snippet =
      "<iframe src=\"https://evil.example/embed\"></iframe>"
    ∧ preprocessHtmlSnippet "a<script>evil()</script>b<iframe src=\"x\"></iframe>" =
      "ab<iframe src=\"x\"></iframe>" := by
  exact ⟨by decide, by decide, by decide, by decide⟩

/-- C7 (amended): for every parsed entry with an empty title and a
non-empty description, the persisted title is non-empty (the derived
title, or the Untitled Post placeholder when nothing can be derived);
when the cleaned description text exceeds 55 characters, the derived
title is a prefix of at most 55 characters followed by an ellipsis
marker — cut at the last space of the prefix only when that space sits
at index 39 or beyond, and mid-word otherwise. -/
theorem fallback_title_c7 (jsParse : String → Option Int) (now : Int) (feed : Feed)
    (e : FeedEntry) (h1 : e.title = "") (h2 : e.description ≠ "") :
    (normalizeEntry jsParse now feed e).title ≠ ""
    ∧ (55 < (cleanedTitleText e.description).length →
        ∃ pre : List Char, generateTitleFromDescription e.description =
          pre.asString ++ "..." ∧ pre.length ≤ 55) := by
  constructor
  · show jsOr (jsOr e.title (generateTitleFromDescription e.description))
      "Untitled Post" ≠ ""
    rw [h1]
    have hx : jsOr "" (generateTitleFromDescription e.description) =
        generateTitleFromDescription e.description := by
      unfold jsOr
      rw [if_pos rfl]
    rw [hx]
    unfold jsOr
    split
    · decide
    · assumption
  · intro hlen
    have hne : ¬((cleanedTitleText e.description).isEmpty = true) := by
      intro habs
      rw [List.isEmpty_iff] at habs
      rw [habs] at hlen
      simp at hlen
    unfold generateTitleFromDescription
    rw [if_neg h2, if_neg hne, if_neg (by omega)]
    cases hsp : lastSpaceIdx ((cleanedTitleText e.description).take 55) with
    | some i =>
      by_cases hi : 39 ≤ i
      · refine ⟨((cleanedTitleText e.description).take 55).take i, ?_, ?_⟩
        · simp [hi]
        · rw [List.length_take, List.length_take]
          exact le_trans (min_le_right _ _) (min_le_left _ _)
      · refine ⟨(cleanedTitleText e.description).take 55, ?_, ?_⟩
        · simp [hi]
        · rw [List.length_take]
          exact min_le_left _ _
    | none =>
      refine ⟨(cleanedTitleText e.description).take 55, rfl, ?_⟩
      rw [List.length_take]
      exact min_le_left _ _

/-- Witness for C7 at the scenario description of the specification. -/
theorem fallback_title_c7_witness :
    (normalizeEntry (fun _ => none) 0 ⟨"u", "a"⟩
      (FeedEntry.mk ""
        "l" ""
        "Hello world this is a long enough description to trigger fallback title generation beyond fifty five characters"
        "")).title ≠ ""
    ∧ (55 < (cleanedTitleText
        "Hello world this is a long enough description to trigger fallback title generation beyond fifty five characters").length →
        ∃ pre : List Char, generateTitleFromDescription
          "Hello world this is a long enough description to trigger fallback title generation beyond fifty five characters" =
            pre.asString ++ "..." ∧ pre.length ≤ 55) :=
  fallback_title_c7 (fun _ => none) 0 ⟨"u", "a"⟩
    (FeedEntry.mk ""
      "l" ""
      "Hello world this is a long enough description to trigger fallback title generation beyond fifty five characters"
      "") rfl (by decide)

/-- Counterexample for C7 as stated: on a description whose cleaned text
is two short words followed by a 56-character word, the last space of
the 55-character prefix sits at index 2, below the bound 39, so the
generated title cuts the long word mid-way (characters 54 and 55 of the
cleaned text are both letters) instead of truncating at the existing
word boundary. -/
theorem fallback_title_c7_cex :
    generateTitleFromDescription exampleLongWordDesc =
      ("ab " ++ String.mk (List.replicate 52 'a')) ++ "..."
    ∧ lastSpaceIdx ((cleanedTitleText exampleLongWordDesc).take 55) = some 2
    ∧ (cleanedTitleText exampleLongWordDesc).getD 54 ' ' = 'a'
    ∧ (cleanedTitleText exampleLongWordDesc).getD 55 ' ' = 'a' := by
  exact ⟨by decide, by decide, by decide, by decide⟩

/-- C9: the image URL of a parsed entry is determined by the structured
probes in exactly the source order media:content, media:thumbnail,
image-typed enclosure, nested image/url element, itunes:image, first
match winning, and the img src found inside the extracted description is
consulted only when all five structured probes miss and the description
is non-empty; when everything misses the image URL is empty. The
hypotheses record that a successful regex match captures a non-empty
group, which the source patterns guarantee. -/
theorem parseEntryImage_priority_c9 (mc mt enc img itu : Option String) (d : String)
    (di : Option String)
    (hmc : ∀ u, mc = some u → u ≠ "") (hmt : ∀ u, mt = some u → u ≠ "")
    (henc : ∀ u, enc = some u → u ≠ "") (himg : ∀ u, img = some u → u ≠ "")
    (hitu : ∀ u, itu = some u → u ≠ "") :
    (∀ u, mc = some u → parseEntryImage mc mt enc img itu d di = u)
    ∧ (mc = none → ∀ u, mt = some u → parseEntryImage mc mt enc img itu d di = u)
    ∧ (mc = none → mt = none → ∀ u, enc = some u →
        parseEntryImage mc mt enc img itu d di = u)
    ∧ (mc = none → mt = none → enc = none → ∀ u, img = some u →
        parseEntryImage mc mt enc img itu d di = u)
    ∧ (mc = none → mt = none → enc = none → img = none → ∀ u, itu = some u →
        parseEntryImage mc mt enc img itu d di = u)
    ∧ (mc = none → mt = none → enc = none → img = none → itu = none → d ≠ "" →
        ∀ u, di = some u → u ≠ "" → parseEntryImage mc mt enc img itu d di = u)
    ∧ (mc = none → mt = none → enc = none → img = none → itu = none →
        (d = "" ∨ di = none) → parseEntryImage mc mt enc img itu d di = "") := by
  refine ⟨?_, ?_, ?_, ?_, ?_, ?_, ?_⟩
  · rintro u rfl
    have hu := hmc u rfl
    cases mt <;> cases enc <;> cases img <;> cases itu <;>
      simp [parseEntryImage, hu]
  · rintro rfl u rfl
    have hu := hmt u rfl
    cases enc <;> cases img <;> cases itu <;>
      simp [parseEntryImage, hu]
  · rintro rfl rfl u rfl
    have hu := henc u rfl
    cases img <;> cases itu <;>
      simp [parseEntryImage, hu]
  · rintro rfl rfl rfl u rfl
    have hu := himg u rfl
    cases itu <;>
      simp [parseEntryImage, hu]
  · rintro rfl rfl rfl rfl u rfl
    have hu := hitu u rfl
    simp [parseEntryImage, hu]
  · rintro rfl rfl rfl rfl rfl hd u rfl hu
    simp [parseEntryImage, hd, hu]
  · rintro rfl rfl rfl rfl rfl hcase
    rcases hcase with rfl | rfl <;> simp [parseEntryImage]

/-- Witness for C9: a media:content match wins, and with only a
description img available it is used. -/
theorem parseEntryImage_priority_c9_witness :
    parseEntryImage (some "https://img.example/a.png") none none none none "" none =
      "https://img.example/a.png"
    ∧ parseEntryImage none none none none none "<p>x</p>"
        (some "https://img.example/d.png") = "https://img.example/d.png" :=
  ⟨(parseEntryImage_priority_c9 (some "https://img.example/a.png") none none none none
      "" none
      (fun u hu => by cases hu; decide) (fun u hu => Option.noConfusion hu)
      (fun u hu => Option.noConfusion hu) (fun u hu => Option.noConfusion hu)
      (fun u hu => Option.noConfusion hu)).1 _ rfl,
   (parseEntryImage_priority_c9 none none none none none "<p>x</p>"
      (some "https://img.example/d.png")
      (fun u hu => Option.noConfusion hu) (fun u hu => Option.noConfusion hu)
      (fun u hu => Option.noConfusion hu) (fun u hu => Option.noConfusion hu)
      (fun u hu => Option.noConfusion hu)).2.2.2.2.2.1 rfl rfl rfl rfl rfl
      (by decide) _ rfl (by decide)⟩

/-- C3: getFeedContent never lets a failure escape: whenever the fetch
stage ends in an error — for any network oracle — the source yields the
empty entry list; and under an oracle answering HTTP 429 on every
attempt, the retry loop (max-retry policy of 3) ends in the rate-limit
error and the source yields zero entries. -/
theorem getFeedContent_degrades_c3 (responses : Nat → FetchOutcome)
    (jsParse : String → Option Int) (now : Int)
    (extractEntries : String → List FeedEntry) (feed : Feed) :
    (∀ e, getFeedXML responses feed.url = Except.error e →
      getFeedContent responses jsParse now extractEntries feed = [])
    ∧ ((∀ i, ∃ body, responses i = Except.ok ⟨429, body⟩) →
        getFeedXML responses feed.url = Except.error ⟨false, rateLimitMsg feed.url⟩
        ∧ getFeedContent responses jsParse now extractEntries feed = []) := by
  constructor
  · intro e he
    simp [getFeedContent, he]
  · intro h
    obtain ⟨b0, h0⟩ := h 0
    obtain ⟨b1, h1⟩ := h 1
    obtain ⟨b2, h2⟩ := h 2
    obtain ⟨b3, h3⟩ := h 3
    have hx : getFeedXML responses feed.url =
        Except.error ⟨false, rateLimitMsg feed.url⟩ := by
      show getFeedXMLGo responses (strContains feed.url "substack.com") feed.url 0
        (maxRetries + 1) = _
      simp [getFeedXMLGo, tryStep, h0, h1, h2, h3, maxRetries, strContains, listHasInfix]
    exact ⟨hx, by simp [getFeedContent, hx]⟩

/-- Witness for C3: a feed whose every fetch attempt answers 429 yields
zero entries. -/
theorem getFeedContent_degrades_c3_witness :
    getFeedXML (fun _ => Except.ok ⟨429, ""⟩) "https://example.org/feed" =
      Except.error ⟨false, rateLimitMsg "https://example.org/feed"⟩
    ∧ getFeedContent (fun _ => Except.ok ⟨429, ""⟩) (fun _ => none) 0 (fun _ => [])
        ⟨"https://example.org/feed", "A"⟩ = [] :=
  (getFeedContent_degrades_c3 (fun _ => Except.ok ⟨429, ""⟩) (fun _ => none) 0
    (fun _ => []) ⟨"https://example.org/feed", "A"⟩).2 (fun _ => ⟨"", rfl⟩)

/-- C4: when the candidate set (unsent items strictly newer than the
ledger instant, in the notifier's descending sort order) holds more than
the per-run bound of 5 items, the run sends exactly the first 5 of them —
which are newest: every dropped candidate is no newer than every sent
one — leaves the links of the dropped candidates out of the updated
sent-posts ledger, and advances latestTimestamp to the publication
instant of one of the sent items, an upper bound of all of them (the
newest item actually sent). The link-uniqueness hypothesis reflects that
links identify items. -/
theorem notifier_five_newest_c4 (post : RssItem → Option Nat) (tracker : PostsTracker)
    (items : List RssItem) (cands : List RssItem)
    (hcands : cands = (sortByPubDateDesc items).filter
      (isNewItem (mkSet tracker.sentPosts) tracker.latestTimestamp))
    (hnd : (items.map RssItem.link).Nodup)
    (hlen : 5 < cands.length) :
    (notifyNewItems true post tracker items).sent = cands.take 5
    ∧ (notifyNewItems true post tracker items).sent.length = 5
    ∧ (∀ a ∈ cands.take 5, ∀ b ∈ cands.drop 5, b.pubDate ≤ a.pubDate)
    ∧ (∀ b ∈ cands.drop 5, b.link ∉ (notifyNewItems true post tracker items).tracker.sentPosts)
    ∧ (notifyNewItems true post tracker items).tracker.latestTimestamp ∈
        (cands.take 5).map RssItem.pubDate
    ∧ (∀ a ∈ cands.take 5,
        a.pubDate ≤ (notifyNewItems true post tracker items).tracker.latestTimestamp) := by
  have hres : notifyNewItems true post tracker items =
      ⟨(((sortByPubDateDesc items).filter
          (isNewItem (mkSet tracker.sentPosts) tracker.latestTimestamp)).take 5 :
            List RssItem),
        ⟨(notifyLoop post (((sortByPubDateDesc items).filter
            (isNewItem (mkSet tracker.sentPosts) tracker.latestTimestamp)).take 5)
            (mkSet tracker.sentPosts, tracker.latestTimestamp)).1,
         (notifyLoop post (((sortByPubDateDesc items).filter
            (isNewItem (mkSet tracker.sentPosts) tracker.latestTimestamp)).take 5)
            (mkSet tracker.sentPosts, tracker.latestTimestamp)).2⟩⟩ := rfl
  rw [← hcands] at hres
  rw [hres]
  dsimp only
  have hmemcands : ∀ b ∈ cands,
      b.link ∉ mkSet tracker.sentPosts ∧ tracker.latestTimestamp < b.pubDate := by
    intro b hb
    rw [hcands] at hb
    have h2 := (List.mem_filter.mp hb).2
    unfold isNewItem at h2
    rw [Bool.and_eq_true] at h2
    constructor
    · have hc : (mkSet tracker.sentPosts).contains b.link = false := by
        have hx := h2.1
        rwa [Bool.not_eq_true'] at hx
      intro hmem
      simp [hmem] at hc
    · exact of_decide_eq_true h2.2
  have hpw : List.Pairwise pubDateGe cands := by
    rw [hcands]
    exact (sortByPubDateDesc_pairwise items).filter _
  have hsplit : cands.take 5 ++ cands.drop 5 = cands := List.take_append_drop 5 cands
  have hpw2 : List.Pairwise pubDateGe (cands.take 5 ++ cands.drop 5) := by
    rw [hsplit]
    exact hpw
  have hTD := (List.pairwise_append.mp hpw2).2.2
  have hge := notifyLoop_snd_ge post (cands.take 5) (mkSet tracker.sentPosts)
    tracker.latestTimestamp
  refine ⟨rfl, ?_, ?_, ?_, ?_, ?_⟩
  · rw [List.length_take]
    omega
  · exact fun a ha b hb => hTD a ha b hb
  · intro b hb hbmem
    rw [notifyLoop_fst_mem] at hbmem
    rcases hbmem with hbmem | hbmem
    · exact (hmemcands b (List.drop_subset 5 cands hb)).1 hbmem
    · have hnodup : (cands.map RssItem.link).Nodup := by
        have hperm := (sortByPubDateDesc_perm items).map RssItem.link
        have hnd2 := hperm.symm.nodup hnd
        rw [hcands]
        exact List.Nodup.sublist ((List.filter_sublist _).map RssItem.link) hnd2
      have hmap2 : ((cands.take 5).map RssItem.link
          ++ (cands.drop 5).map RssItem.link).Nodup := by
        rw [← List.map_append, hsplit]
        exact hnodup
      have hdisj := (List.nodup_append.mp hmap2).2.2
      exact hdisj hbmem (List.mem_map.mpr ⟨b, hb, rfl⟩)
  · rcases notifyLoop_snd_eq_or_mem post (cands.take 5) (mkSet tracker.sentPosts)
        tracker.latestTimestamp with heq | hmem
    · exfalso
      obtain ⟨a0, ha0⟩ : ∃ a, a ∈ cands.take 5 := by
        apply List.exists_mem_of_length_pos
        rw [List.length_take]
        omega
      have hlt := (hmemcands a0 (List.take_subset 5 cands ha0)).2
      have hle := hge.2 a0 ha0
      rw [heq] at hle
      omega
    · exact hmem
  · exact hge.2

/-- Witness for C4: seven fresh candidates, a failing webhook, and the
run sends the first five of the sorted candidate list. -/
theorem notifier_five_newest_c4_witness :
    5 < (((sortByPubDateDesc exampleItems).filter
        (isNewItem (mkSet exampleTracker.sentPosts) exampleTracker.latestTimestamp)).length)
    ∧ (notifyNewItems true (fun _ => none) exampleTracker exampleItems).sent =
        (((sortByPubDateDesc exampleItems).filter
          (isNewItem (mkSet exampleTracker.sentPosts) exampleTracker.latestTimestamp)).take 5) :=
  ⟨by decide, (notifier_five_newest_c4 (fun _ => none) exampleTracker exampleItems _
    rfl (by decide) (by decide)).1⟩

/-- C6: every item of the batch a notifier run iterates is recorded in
the updated ledger — its link enters sentPosts and its instant is
bounded by the advanced latestTimestamp — for every behavior of the
webhook oracle, including failing POSTs, because sendToDiscord catches
its own errors; consequently no later run, whatever its items and
webhook outcomes, ever has that link in its batch again. -/
theorem notifier_failed_send_marked_c6 (post post2 : RssItem → Option Nat)
    (tracker : PostsTracker) (items items2 : List RssItem) (item : RssItem)
    (h : item ∈ (notifyNewItems true post tracker items).sent) :
    item.link ∈ (notifyNewItems true post tracker items).tracker.sentPosts
    ∧ item.pubDate ≤ (notifyNewItems true post tracker items).tracker.latestTimestamp
    ∧ ∀ j ∈ (notifyNewItems true post2 (notifyNewItems true post tracker items).tracker
        items2).sent, j.link ≠ item.link := by
  have hres : notifyNewItems true post tracker items =
      ⟨(((sortByPubDateDesc items).filter
          (isNewItem (mkSet tracker.sentPosts) tracker.latestTimestamp)).take 5 :
            List RssItem),
        ⟨(notifyLoop post (((sortByPubDateDesc items).filter
            (isNewItem (mkSet tracker.sentPosts) tracker.latestTimestamp)).take 5)
            (mkSet tracker.sentPosts, tracker.latestTimestamp)).1,
         (notifyLoop post (((sortByPubDateDesc items).filter
            (isNewItem (mkSet tracker.sentPosts) tracker.latestTimestamp)).take 5)
            (mkSet tracker.sentPosts, tracker.latestTimestamp)).2⟩⟩ := rfl
  rw [hres] at h ⊢
  dsimp only at h ⊢
  have hmem1 : item.link ∈ (notifyLoop post (((sortByPubDateDesc items).filter
      (isNewItem (mkSet tracker.sentPosts) tracker.latestTimestamp)).take 5)
      (mkSet tracker.sentPosts, tracker.latestTimestamp)).1 := by
    rw [notifyLoop_fst_mem]
    exact Or.inr (List.mem_map.mpr ⟨item, h, rfl⟩)
  refine ⟨hmem1, ?_, ?_⟩
  · exact (notifyLoop_snd_ge post _ _ _).2 item h
  · intro j hj heq
    have hj2 : j ∈ ((sortByPubDateDesc items2).filter
        (isNewItem (mkSet (notifyLoop post (((sortByPubDateDesc items).filter
            (isNewItem (mkSet tracker.sentPosts) tracker.latestTimestamp)).take 5)
            (mkSet tracker.sentPosts, tracker.latestTimestamp)).1)
          (notifyLoop post (((sortByPubDateDesc items).filter
            (isNewItem (mkSet tracker.sentPosts) tracker.latestTimestamp)).take 5)
            (mkSet tracker.sentPosts, tracker.latestTimestamp)).2)) := by
      exact List.take_subset 5 _ hj
    have hbool := (List.mem_filter.mp hj2).2
    unfold isNewItem at hbool
    rw [Bool.and_eq_true] at hbool
    have hc : (mkSet (notifyLoop post (((sortByPubDateDesc items).filter
        (isNewItem (mkSet tracker.sentPosts) tracker.latestTimestamp)).take 5)
        (mkSet tracker.sentPosts, tracker.latestTimestamp)).1).contains j.link = false := by
      have hx := hbool.1
      rwa [Bool.not_eq_true'] at hx
    have hjin : j.link ∈ mkSet (notifyLoop post (((sortByPubDateDesc items).filter
        (isNewItem (mkSet tracker.sentPosts) tracker.latestTimestamp)).take 5)
        (mkSet tracker.sentPosts, tracker.latestTimestamp)).1 := by
      rw [heq, mem_mkSet]
      exact hmem1
    simp [hjin] at hc

/-- Witness for C6: with every POST failing, the first sent item of the
example run is still recorded, and a rerun over the same items never
contains its link. -/
theorem notifier_failed_send_marked_c6_witness :
    (⟨"t2", "l2", 107, "", "a"⟩ : RssItem).link ∈
      (notifyNewItems true (fun _ => none) exampleTracker exampleItems).tracker.sentPosts
    ∧ (⟨"t2", "l2", 107, "", "a"⟩ : RssItem).pubDate ≤
      (notifyNewItems true (fun _ => none) exampleTracker exampleItems).tracker.latestTimestamp
    ∧ ∀ j ∈ (notifyNewItems true (fun _ => some 204)
        (notifyNewItems true (fun _ => none) exampleTracker exampleItems).tracker
        exampleItems).sent, j.link ≠ (⟨"t2", "l2", 107, "", "a"⟩ : RssItem).link :=
  notifier_failed_send_marked_c6 (fun _ => none) (fun _ => some 204) exampleTracker
    exampleItems exampleItems ⟨"t2", "l2", 107, "", "a"⟩ (by decide)

end Subcurrent
